import Mathlib

set_option linter.unusedVariables false

/-!
Verification of the command-line dispatch core of btrfs-progs (btrfs.c):
token-to-command resolution (exact and abbreviated matching), global-option
handling, special-global interception and output-format negotiation.

C strings are modelled as NUL-free lists of characters (the terminating NUL
is not part of the list).  Process termination paths (`exit(n)`) are
modelled as terminal result constructors carrying the exit status and the
diagnostic text, so that "no further work happens after exit" holds by
construction.
-/

/-- Model of a C string: its characters up to (and excluding) the
terminating NUL byte. -/
abbrev Str := List Char

/-- Predicate holding when no character of the modelled string is the NUL
byte; every string reachable from C `argv` or a C string literal satisfies
this. -/
def nul_free (s : Str) : Bool := s.all (fun c => c.toNat != 0)

/-- Modelled from the spec: libc `strncmp`, comparing at most `n`
characters and stopping at the end of either string (its NUL); used by
`btrfs.c` only through the prefix test of `skip_prefix`. -/
def strncmp : Str → Str → Nat → Int
  | _, _, 0 => 0
  | [], [], _ + 1 => 0
  | [], b :: _, _ + 1 => 0 - (b.toNat : Int)
  | a :: _, [], _ + 1 => (a.toNat : Int)
  | a :: as, b :: bs, n + 1 =>
    if a = b then strncmp as bs n else (a.toNat : Int) - (b.toNat : Int)

/-- Source `btrfs.c` `skip_prefix(str, prefix)`: the remainder of `str`
past `prefix` when `strncmp` reports a prefix match over `strlen(prefix)`
characters, else `NULL`. -/
def skip_prefix (str pfx : Str) : Option Str :=
  if strncmp str pfx pfx.length = 0 then some (str.drop pfx.length) else none

/-- Modelled from the spec: `prefixcmp(str, prefix)` from the shared utils
header (declared outside src/); per the abbreviation step of the token
matcher it returns 0 exactly when `prefix` is an initial segment of
`str`, and the (unsigned) difference of the first mismatching characters
otherwise. -/
def prefixcmp : Str → Str → Int
  | _, [] => 0
  | [], p :: _ => (p.toNat : Int)
  | s :: ss, p :: ps =>
    if s = p then prefixcmp ss ps else (p.toNat : Int) - (s.toNat : Int)

/-- Modelled from the spec: `struct cmd_struct` (commands.h, declared
outside src/): a command has a token string, a bitmask of supported output
formats and an optional nested group, carried here as the nested group's
command list (the group's usage strings feed only the external help
renderer).  The executable handler is an opaque external collaborator and
is not part of the model. -/
inductive cmd_struct : Type where
  | mk (token : Str) (cmd_format_flags : Nat) (next : Option (List cmd_struct))

/-- Token string of a command. -/
def cmd_struct.token : cmd_struct → Str
  | .mk t _ _ => t

/-- Output-format capability bitmask of a command. -/
def cmd_struct.cmd_format_flags : cmd_struct → Nat
  | .mk _ f _ => f

/-- Nested group of a command (`none` models a NULL `next` pointer, i.e. a
leaf command). -/
def cmd_struct.next : cmd_struct → Option (List cmd_struct)
  | .mk _ _ n => n

/-- Modelled from the spec: `struct cmd_group` (commands.h) restricted to
its NULL-terminated command array; the usage and info strings are consumed
only by the external help renderer and are omitted. -/
structure cmd_group where
  commands : List cmd_struct

/-- Modelled from the spec: `struct cmd_context` (commands.h), the dispatch
context holding the selected output mode (a value of the output-mode
enum, as a natural number). -/
structure cmd_context where
  output_mode : Nat
deriving DecidableEq

/-- Modelled from the spec: `CMD_OUTPUT_TEXT`, the default text mode, is
the first enumerator (value 0) of the output-mode enum of commands.h. -/
def CMD_OUTPUT_TEXT : Nat := 0

/-- Resolution result of `parse_one_token`: return value 0 with
`*cmd_ret` set, -1 (no match) or -2 (ambiguous abbreviation). -/
inductive parse_result : Type where
  | found (cmd : cmd_struct)
  | notFound
  | ambiguous

/-- Source `btrfs.c` `parse_one_token` scan loop and epilogue, with the two
scan-state variables `abbrev_cmd` and `ambiguous_cmd` made explicit
accumulators.  An exact match (empty remainder after `skip_prefix`)
returns immediately; a name having the input as an initial segment
replaces the abbreviation candidate, recording the previous candidate as
the ambiguity marker. -/
def parse_one_token_loop (arg : Str) :
    List cmd_struct → Option cmd_struct → Option cmd_struct → parse_result
  | [], abbrev_cmd, ambiguous_cmd =>
    if ambiguous_cmd.isSome then .ambiguous
    else
      match abbrev_cmd with
      | some cmd => .found cmd
      | none => .notFound
  | cmd :: cmds, abbrev_cmd, ambiguous_cmd =>
    match skip_prefix arg cmd.token with
    | none =>
      if prefixcmp cmd.token arg = 0 then
        parse_one_token_loop arg cmds (some cmd)
          (if abbrev_cmd.isSome then abbrev_cmd else ambiguous_cmd)
      else parse_one_token_loop arg cmds abbrev_cmd ambiguous_cmd
    | some rest =>
      if rest = [] then .found cmd
      else parse_one_token_loop arg cmds abbrev_cmd ambiguous_cmd

/-- Source `btrfs.c` `parse_one_token`: resolve one input token against a
command group. -/
def parse_one_token (arg : Str) (grp : cmd_group) : parse_result :=
  parse_one_token_loop arg grp.commands none none

/-- Characters are determined by their code points. -/
theorem char_toNat_inj {a b : Char} (h : a.toNat = b.toNat) : a = b :=
  Char.eq_of_val_eq (UInt32.eq_of_toBitVec_eq (BitVec.eq_of_toNat_eq h))

/-- For a NUL-free second string, `strncmp` over that string's length
reports 0 exactly when it is an initial segment of the first string. -/
theorem strncmp_eq_zero_iff :
    ∀ (b a : Str), nul_free b = true →
      (strncmp a b b.length = 0 ↔ b.isPrefixOf a = true) := by
  intro b
  induction b with
  | nil =>
    intro a _
    simp [strncmp, List.isPrefixOf]
  | cons x xs ih =>
    intro a hnf
    have hx : x.toNat ≠ 0 := by
      simp [nul_free, List.all_cons] at hnf
      simpa using hnf.1
    have hxs : nul_free xs = true := by
      simp [nul_free, List.all_cons] at hnf
      simpa [nul_free] using hnf.2
    cases a with
    | nil =>
      simp only [List.length_cons, strncmp, List.isPrefixOf]
      constructor
      · intro h
        exfalso
        omega
      · intro h
        exact absurd h (by simp)
    | cons y ys =>
      simp only [List.length_cons, strncmp, List.isPrefixOf, Bool.and_eq_true, beq_iff_eq]
      by_cases hyx : y = x
      · subst hyx
        simp [ih ys hxs]
      · rw [if_neg hyx]
        constructor
        · intro h
          exfalso
          have : y.toNat ≠ x.toNat := fun hc => hyx (char_toNat_inj hc)
          omega
        · rintro ⟨h, -⟩
          exact absurd h.symm hyx

/-- For a NUL-free second argument, `prefixcmp` reports 0 exactly when that
argument is an initial segment of the first. -/
theorem prefixcmp_eq_zero_iff :
    ∀ (p s : Str), nul_free p = true →
      (prefixcmp s p = 0 ↔ p.isPrefixOf s = true) := by
  intro p
  induction p with
  | nil =>
    intro s _
    simp [prefixcmp, List.isPrefixOf]
  | cons x xs ih =>
    intro s hnf
    have hx : x.toNat ≠ 0 := by
      simp [nul_free, List.all_cons] at hnf
      simpa using hnf.1
    have hxs : nul_free xs = true := by
      simp [nul_free, List.all_cons] at hnf
      simpa [nul_free] using hnf.2
    cases s with
    | nil =>
      simp only [prefixcmp, List.isPrefixOf]
      constructor
      · intro h
        exfalso
        omega
      · intro h
        exact absurd h (by simp)
    | cons y ys =>
      simp only [prefixcmp, List.isPrefixOf, Bool.and_eq_true, beq_iff_eq]
      by_cases hyx : y = x
      · subst hyx
        simp [ih ys hxs]
      · rw [if_neg hyx]
        constructor
        · intro h
          exfalso
          have : y.toNat ≠ x.toNat := fun hc => hyx (char_toNat_inj hc)
          omega
        · rintro ⟨h, -⟩
          exact absurd h.symm hyx

/-- `strncmp` on equal strings is 0 for any length bound. -/
theorem strncmp_self : ∀ (a : Str) (n : Nat), strncmp a a n = 0 := by
  intro a
  induction a with
  | nil => intro n; cases n <;> rfl
  | cons x xs ih =>
    intro n
    cases n with
    | zero => rfl
    | succ m => simpa [strncmp] using ih m

/-- An exact token gives an empty remainder in `skip_prefix`. -/
theorem skip_prefix_self (arg : Str) : skip_prefix arg arg = some [] := by
  simp [ skip_prefix, strncmp_self]

/-- Conversely, for a NUL-free token an empty remainder means the token is
the whole input. -/
theorem skip_prefix_eq_some_nil (arg tok : Str) (hnf : nul_free tok = true)
    (h : skip_prefix arg tok = some []) : tok = arg := by
  unfold skip_prefix at h
  by_cases hz : strncmp arg tok tok.length = 0
  · rw [if_pos hz] at h
    have hpfx : tok.isPrefixOf arg = true := (strncmp_eq_zero_iff tok arg hnf).mp hz
    have hpre : tok <+: arg := List.isPrefixOf_iff_prefix.mp hpfx
    have hdrop : arg.drop tok.length = [] := by
      injection h
    have hlen : arg.length ≤ tok.length := by
      have := List.drop_eq_nil_iff.mp hdrop
      exact this
    exact (List.IsPrefix.eq_of_length_le hpre hlen).symm ▸ rfl
  · rw [if_neg hz] at h
    exact absurd h (by simp)

/-- Scan-loop form of the exact-match guarantee: whenever some remaining
command carries exactly the input token (and is the only one doing so),
the loop returns it, whatever the accumulated abbreviation state. -/
theorem parse_one_token_loop_exact (arg : Str) :
    ∀ (cmds : List cmd_struct) (ab am : Option cmd_struct) (c : cmd_struct),
      (∀ c' ∈ cmds, nul_free c'.token = true) →
      c ∈ cmds → c.token = arg →
      (∀ c' ∈ cmds, c'.token = arg → c' = c) →
      parse_one_token_loop arg cmds ab am = .found c := by
  intro cmds
  induction cmds with
  | nil =>
    intro ab am c _ hmem _ _
    exact absurd hmem (List.not_mem_nil c)
  | cons h t ih =>
    intro ab am c hnul hmem htok hfirst
    by_cases hh : h.token = arg
    · have hc : h = c := hfirst h (List.Mem.head t) hh
      subst hc
      rw [parse_one_token_loop, hh, skip_prefix_self]
      simp
    · have hstep : ∀ ab' am', parse_one_token_loop arg (h :: t) ab' am' =
          parse_one_token_loop arg t
            (if prefixcmp h.token arg = 0 ∧ skip_prefix arg h.token = none
             then some h else ab')
            (if prefixcmp h.token arg = 0 ∧ skip_prefix arg h.token = none
             then (if ab'.isSome then ab' else am') else am') := by
        intro ab' am'
        rw [parse_one_token_loop]
        cases hsp : skip_prefix arg h.token with
        | none =>
          by_cases hpc : prefixcmp h.token arg = 0
          · rw [if_pos hpc]
            simp [hpc, hsp]
          · rw [if_neg hpc]
            simp [hpc]
        | some rest =>
          have hr : rest ≠ [] := by
            intro hnil
            subst hnil
            exact hh (skip_prefix_eq_some_nil arg h.token
              (hnul h (List.Mem.head t)) hsp)
          simp [hr, hsp]
      rw [hstep ab am]
      have hmem' : c ∈ t := by
        cases hmem with
        | head => exact absurd htok hh
        | tail _ hm => exact hm
      exact ih _ _ c (fun c' hc' => hnul c' (List.Mem.tail h hc')) hmem' htok
        (fun c' hc' ht' => hfirst c' (List.Mem.tail h hc') ht')

/-- In a list of commands with pairwise distinct tokens, a member is
determined by its token. -/
theorem token_unique_of_pairwise :
    ∀ (l : List cmd_struct), l.Pairwise (fun a b => a.token ≠ b.token) →
      ∀ c ∈ l, ∀ c' ∈ l, c'.token = c.token → c' = c := by
  intro l
  induction l with
  | nil =>
    intro _ c hc
    exact absurd hc (List.not_mem_nil c)
  | cons h t ih =>
    intro hp c hc c' hc' htok
    have hp' := List.pairwise_cons.mp hp
    cases hc with
    | head =>
      cases hc' with
      | head => rfl
      | tail _ hm' => exact absurd htok.symm (hp'.1 c' hm')
    | tail _ hm =>
      cases hc' with
      | head => exact absurd htok (hp'.1 c hm)
      | tail _ hm' => exact ih hp'.2 c hm c' hm' htok

/-- Claim C1: for every command group with unique (pairwise distinct)
names, an input token equal to some command's full name resolves to that
command — never Ambiguous — regardless of any prefix relationships with
the other names: the exact match short-circuits the scan even if
abbreviation candidates were recorded earlier. -/
theorem parse_one_token_exact_match (grp : cmd_group) (arg : Str) (c : cmd_struct)
    (hnul : ∀ c' ∈ grp.commands, nul_free c'.token = true)
    (huniq : grp.commands.Pairwise (fun a b => a.token ≠ b.token))
    (hmem : c ∈ grp.commands) (htok : c.token = arg) :
    parse_one_token arg grp = .found c := by
  refine parse_one_token_loop_exact arg grp.commands none none c hnul hmem htok ?_
  intro c' hc' ht'
  exact token_unique_of_pairwise grp.commands huniq c hmem c' hc' (htok ▸ ht')

/-- Claim C1 witness: in the group listing `checksum` before `check`, the
input `check` resolves to the `check` command even though `checksum` was
already recorded as an abbreviation candidate when the exact name is
reached. -/
theorem parse_one_token_exact_match_witness :
    parse_one_token "check".data
      ⟨[cmd_struct.mk "checksum".data 0 none, cmd_struct.mk "check".data 0 none]⟩ =
      .found (cmd_struct.mk "check".data 0 none) :=
  parse_one_token_exact_match
    ⟨[cmd_struct.mk "checksum".data 0 none, cmd_struct.mk "check".data 0 none]⟩
    "check".data (cmd_struct.mk "check".data 0 none)
    (by intro c' hc'
        cases hc' with
        | head => decide
        | tail _ hm =>
          cases hm with
          | head => decide
          | tail _ hm' => exact absurd hm' (List.not_mem_nil _))
    (by refine List.pairwise_cons.mpr ⟨?_, List.pairwise_cons.mpr ⟨?_, List.Pairwise.nil⟩⟩
        · intro c' hc'
          cases hc' with
          | head => decide
          | tail _ hm' => exact absurd hm' (List.not_mem_nil _)
        · intro c' hc'
          exact absurd hc' (List.not_mem_nil _))
    (List.Mem.tail _ (List.Mem.head _)) rfl

/-- When a NUL-free token is not an initial segment of the input, the
prefix test of `skip_prefix` fails. -/
theorem skip_prefix_none_of_not (arg tok : Str) (hnf : nul_free tok = true)
    (h : tok.isPrefixOf arg = false) : skip_prefix arg tok = none := by
  unfold skip_prefix
  rw [if_neg]
  intro hz
  rw [(strncmp_eq_zero_iff tok arg hnf).mp hz] at h
  exact Bool.noConfusion h

/-- When a NUL-free token is a proper initial segment of the input, the
remainder produced by `skip_prefix` is non-empty. -/
theorem skip_prefix_some_ne_nil (arg tok : Str) (hnf : nul_free tok = true)
    (hpf : tok.isPrefixOf arg = true) (hne : tok ≠ arg) :
    skip_prefix arg tok = some (arg.drop tok.length) ∧ arg.drop tok.length ≠ [] := by
  have hz : strncmp arg tok tok.length = 0 := (strncmp_eq_zero_iff tok arg hnf).mpr hpf
  refine ⟨by simp [ skip_prefix, hz], ?_⟩
  intro hdrop
  have hpre : tok <+: arg := List.isPrefixOf_iff_prefix.mp hpf
  have hlen : arg.length ≤ tok.length := List.drop_eq_nil_iff.mp hdrop
  exact hne (List.IsPrefix.eq_of_length_le hpre hlen)

/-- Outcome of the `parse_one_token` scan reconstructed from the list of
abbreviation candidates still to be seen and the current scan state: a
second candidate (or a pre-existing ambiguity marker) forces Ambiguous, a
single candidate wins only over an empty state, and an empty candidate
list returns the accumulated state. -/
def scan_outcome : List cmd_struct → Option cmd_struct → Option cmd_struct → parse_result
  | [], ab, am =>
    if am.isSome then .ambiguous
    else
      match ab with
      | some x => .found x
      | none => .notFound
  | [c], ab, am => if am.isSome || ab.isSome then .ambiguous else .found c
  | _ :: _ :: _, _, _ => .ambiguous

/-- Absorbing one candidate into the scan state preserves the outcome. -/
theorem scan_outcome_cons (h : cmd_struct) (cands : List cmd_struct)
    (ab am : Option cmd_struct) :
    scan_outcome (h :: cands) ab am =
      scan_outcome cands (some h) (if ab.isSome then ab else am) := by
  cases cands with
  | nil => cases ab <;> cases am <;> simp [scan_outcome]
  | cons c cs =>
    cases cs with
    | nil => cases ab <;> cases am <;> simp [scan_outcome]
    | cons d ds => simp [scan_outcome]

/-- Scan-loop characterisation in the absence of an exact match: the loop
computes `scan_outcome` of the commands whose names have the input as an
initial segment. -/
theorem parse_one_token_loop_no_exact (arg : Str) (hna : nul_free arg = true) :
    ∀ (cmds : List cmd_struct) (ab am : Option cmd_struct),
      (∀ c ∈ cmds, nul_free c.token = true) →
      (∀ c ∈ cmds, c.token ≠ arg) →
      parse_one_token_loop arg cmds ab am =
        scan_outcome (cmds.filter (fun c => arg.isPrefixOf c.token)) ab am := by
  intro cmds
  induction cmds with
  | nil => intro ab am _ _; rfl
  | cons h t ih =>
    intro ab am hnul hne
    have hnh : nul_free h.token = true := hnul h (List.Mem.head t)
    have hneh : h.token ≠ arg := hne h (List.Mem.head t)
    have hnt : ∀ c ∈ t, nul_free c.token = true :=
      fun c hc => hnul c (List.Mem.tail h hc)
    have hnet : ∀ c ∈ t, c.token ≠ arg := fun c hc => hne c (List.Mem.tail h hc)
    by_cases hpf : arg.isPrefixOf h.token = true
    · have hsp : skip_prefix arg h.token = none := by
        refine skip_prefix_none_of_not arg h.token hnh ?_
        cases hpf2 : h.token.isPrefixOf arg with
        | false => rfl
        | true =>
          exfalso
          have h1 : arg <+: h.token := List.isPrefixOf_iff_prefix.mp hpf
          have h2 : h.token <+: arg := List.isPrefixOf_iff_prefix.mp hpf2
          exact hneh (h2.eq_of_length_le h1.length_le)
      have hpc : prefixcmp h.token arg = 0 :=
        (prefixcmp_eq_zero_iff arg h.token hna).mpr hpf
      simp only [parse_one_token_loop, hsp]
      rw [if_pos hpc]
      rw [ih (some h) (if ab.isSome then ab else am) hnt hnet]
      rw [@List.filter_cons_of_pos _ (fun c => List.isPrefixOf arg c.token) h t hpf]
      exact (scan_outcome_cons h _ ab am).symm
    · have hpfF : arg.isPrefixOf h.token = false := by
        cases hq : arg.isPrefixOf h.token with
        | false => rfl
        | true => exact absurd hq hpf
      rw [@List.filter_cons_of_neg _ (fun c => List.isPrefixOf arg c.token) h t
        (by intro hq; exact absurd hq (by simp [hpfF]))]
      by_cases hrev : h.token.isPrefixOf arg = true
      · obtain ⟨hsp, hrest⟩ := skip_prefix_some_ne_nil arg h.token hnh hrev hneh
        simp only [parse_one_token_loop, hsp]
        rw [if_neg hrest]
        exact ih ab am hnt hnet
      · have hrevF : h.token.isPrefixOf arg = false := by
          cases hq : h.token.isPrefixOf arg with
          | false => rfl
          | true => exact absurd hq hrev
        have hsp : skip_prefix arg h.token = none :=
          skip_prefix_none_of_not arg h.token hnh hrevF
        have hpc : prefixcmp h.token arg ≠ 0 := by
          intro hz
          rw [(prefixcmp_eq_zero_iff arg h.token hna).mp hz] at hpfF
          exact Bool.noConfusion hpfF
        simp only [parse_one_token_loop, hsp]
        rw [if_neg hpc]
        exact ih ab am hnt hnet

/-- Claim C2: in a command group where exactly one command's name starts
with the (non-empty) input token as an initial segment and no command's
name equals the token exactly, the token matcher resolves to that
uniquely-prefixed command. -/
theorem parse_one_token_unique_abbrev (grp : cmd_group) (arg : Str) (c : cmd_struct)
    (hne0 : arg ≠ [])
    (hna : nul_free arg = true)
    (hnul : ∀ c' ∈ grp.commands, nul_free c'.token = true)
    (hnoexact : ∀ c' ∈ grp.commands, c'.token ≠ arg)
    (huniq : grp.commands.filter (fun c' => List.isPrefixOf arg c'.token) = [c]) :
    parse_one_token arg grp = .found c := by
  unfold parse_one_token
  rw [parse_one_token_loop_no_exact arg hna grp.commands none none hnul hnoexact, huniq]
  rfl

/-- Claim C2 witness: in the group {subvolume, send}, the input `sub`
resolves to `subvolume`. -/
theorem parse_one_token_unique_abbrev_witness :
    parse_one_token "sub".data
      ⟨[cmd_struct.mk "subvolume".data 0 none, cmd_struct.mk "send".data 0 none]⟩ =
      .found (cmd_struct.mk "subvolume".data 0 none) :=
  parse_one_token_unique_abbrev
    ⟨[cmd_struct.mk "subvolume".data 0 none, cmd_struct.mk "send".data 0 none]⟩
    "sub".data (cmd_struct.mk "subvolume".data 0 none)
    (by decide) (by decide)
    (by intro c' hc'
        cases hc' with
        | head => decide
        | tail _ hm =>
          cases hm with
          | head => decide
          | tail _ hm' => exact absurd hm' (List.not_mem_nil _))
    (by intro c' hc'
        cases hc' with
        | head => decide
        | tail _ hm =>
          cases hm with
          | head => decide
          | tail _ hm' => exact absurd hm' (List.not_mem_nil _))
    rfl

/-- Claim C3: in a command group where two or more commands' names start
with the (non-empty) input token as an initial segment and no command's
name equals the token exactly, the token matcher returns Ambiguous. -/
theorem parse_one_token_ambiguous_abbrev (grp : cmd_group) (arg : Str)
    (hne0 : arg ≠ [])
    (hna : nul_free arg = true)
    (hnul : ∀ c' ∈ grp.commands, nul_free c'.token = true)
    (hnoexact : ∀ c' ∈ grp.commands, c'.token ≠ arg)
    (hmany : 2 ≤ (grp.commands.filter (fun c' => List.isPrefixOf arg c'.token)).length) :
    parse_one_token arg grp = .ambiguous := by
  unfold parse_one_token
  rw [parse_one_token_loop_no_exact arg hna grp.commands none none hnul hnoexact]
  cases hf : grp.commands.filter (fun c' => List.isPrefixOf arg c'.token) with
  | nil =>
    rw [hf] at hmany
    simp at hmany
  | cons a l =>
    cases l with
    | nil =>
      rw [hf] at hmany
      simp at hmany
    | cons b l' => rfl

/-- Claim C3 witness: in the group {qgroup, quota}, the input `q` is
Ambiguous. -/
theorem parse_one_token_ambiguous_abbrev_witness :
    parse_one_token "q".data
      ⟨[cmd_struct.mk "qgroup".data 0 none, cmd_struct.mk "quota".data 0 none]⟩ =
      .ambiguous :=
  parse_one_token_ambiguous_abbrev
    ⟨[cmd_struct.mk "qgroup".data 0 none, cmd_struct.mk "quota".data 0 none]⟩
    "q".data (by decide) (by decide)
    (by intro c' hc'
        cases hc' with
        | head => decide
        | tail _ hm =>
          cases hm with
          | head => decide
          | tail _ hm' => exact absurd hm' (List.not_mem_nil _))
    (by intro c' hc'
        cases hc' with
        | head => decide
        | tail _ hm =>
          cases hm with
          | head => decide
          | tail _ hm' => exact absurd hm' (List.not_mem_nil _))
    (by decide)

/-- Claim C4 counterexample: the claim "for every command group, the empty
input token yields NotFound" fails on the code: in the two-command group
{quota, qgroup} the empty token is treated by `prefixcmp` as an initial
segment of both names, so the scan records two abbreviation candidates
and returns Ambiguous, not NotFound. -/
theorem parse_one_token_empty_counterexample :
    parse_one_token []
        ⟨[cmd_struct.mk "quota".data 0 none, cmd_struct.mk "qgroup".data 0 none]⟩ =
      .ambiguous ∧
    parse_result.ambiguous ≠ parse_result.notFound :=
  ⟨rfl, fun h => parse_result.noConfusion h⟩

/-- Claim C4 as amended: the empty input token is an initial segment of
every (non-empty) command name, so `parse_one_token` on the empty token
returns NotFound only for the empty group, the unique command of a
singleton group, and Ambiguous for every group with two or more
commands. -/
theorem parse_one_token_empty_token (grp : cmd_group)
    (hne : ∀ c ∈ grp.commands, c.token ≠ [])
    (hnul : ∀ c ∈ grp.commands, nul_free c.token = true) :
    parse_one_token [] grp =
      match grp.commands with
      | [] => .notFound
      | [c] => .found c
      | _ :: _ :: _ => .ambiguous := by
  unfold parse_one_token
  rw [parse_one_token_loop_no_exact [] rfl grp.commands none none hnul hne]
  have hfilt : grp.commands.filter (fun c => List.isPrefixOf [] c.token) =
      grp.commands := by
    apply List.filter_eq_self.mpr
    intro c _
    cases c.token with
    | nil => rfl
    | cons x xs => rfl
  rw [hfilt]
  cases grp.commands with
  | nil => rfl
  | cons a l =>
    cases l with
    | nil => rfl
    | cons b l' => rfl

/-- Claim C4 amended witness: the empty token on the concrete group
{help, version} is Ambiguous. -/
theorem parse_one_token_empty_token_witness :
    parse_one_token []
      ⟨[cmd_struct.mk "help".data 0 none, cmd_struct.mk "version".data 0 none]⟩ =
      .ambiguous :=
  parse_one_token_empty_token
    ⟨[cmd_struct.mk "help".data 0 none, cmd_struct.mk "version".data 0 none]⟩
    (by intro c' hc'
        cases hc' with
        | head => decide
        | tail _ hm =>
          cases hm with
          | head => decide
          | tail _ hm' => exact absurd hm' (List.not_mem_nil _))
    (by intro c' hc'
        cases hc' with
        | head => decide
        | tail _ hm =>
          cases hm with
          | head => decide
          | tail _ hm' => exact absurd hm' (List.not_mem_nil _))

/-- Source `btrfs.c` `cmd_provides_output_format`: a command supports the
requested output mode when the context's mode is the default (the `!mode`
test, i.e. mode 0) or the mode's bit is set in the command's capability
mask (`(1 << mode) & cmd_format_flags`, nonzero meaning true). -/
def cmd_provides_output_format (cmd : cmd_struct) (cmdcxt : cmd_context) : Bool :=
  if cmdcxt.output_mode = 0 then true
  else (1 <<< cmdcxt.output_mode) &&& cmd.cmd_format_flags != 0

/-- A natural number with the bit `m` of `f` singled out by masking is
nonzero exactly when that bit is set. -/
theorem shiftLeft_and_ne_zero_iff (m f : Nat) :
    ((1 <<< m) &&& f ≠ 0) ↔ f.testBit m = true := by
  rw [Nat.one_shiftLeft]
  constructor
  · intro h
    by_contra hb
    apply h
    apply Nat.eq_of_testBit_eq
    intro i
    rw [Nat.testBit_and, Nat.zero_testBit]
    by_cases him : i = m
    · subst him
      simp [Bool.eq_false_iff.mpr hb]
    · simp [Nat.testBit_two_pow, him]
      exact fun h' => absurd h'.symm him
  · intro h hz
    have := congrArg (fun n => n.testBit m) hz
    simp [Nat.testBit_and, Nat.testBit_two_pow, h] at this

/-- Claim C9: the output-format negotiator returns true exactly when the
context's mode is the default text mode or the bit corresponding to the
requested mode is set in the command's capability mask. -/
theorem cmd_provides_output_format_iff (cmd : cmd_struct) (cmdcxt : cmd_context) :
    cmd_provides_output_format cmd cmdcxt = true ↔
      (cmdcxt.output_mode = CMD_OUTPUT_TEXT ∨
        cmd.cmd_format_flags.testBit cmdcxt.output_mode = true) := by
  unfold cmd_provides_output_format CMD_OUTPUT_TEXT
  by_cases h0 : cmdcxt.output_mode = 0
  · simp [h0]
  · rw [if_neg h0]
    rw [show ((1 <<< cmdcxt.output_mode) &&& cmd.cmd_format_flags != 0) = true ↔
        ((1 <<< cmdcxt.output_mode) &&& cmd.cmd_format_flags ≠ 0) from bne_iff_ne]
    rw [shiftLeft_and_ne_zero_iff]
    simp [h0]

/-- Modelled from the spec: ASCII `tolower` (ctype), the lowercase folding
used by `strcasecmp`. -/
def tolower (c : Char) : Char :=
  if 'A' ≤ c ∧ c ≤ 'Z' then Char.ofNat (c.toNat + 32) else c

/-- Two strings are case-insensitively equal when their lowercase foldings
agree character by character; this is the specification-level notion the
`--format` lookup is measured against. -/
def ci_eq (a b : Str) : Prop := a.map tolower = b.map tolower

/-- Modelled from the spec: libc `strcasecmp`, comparing two strings
case-insensitively and returning the difference of the first pair of
lowercased characters that differ (0 at simultaneous end of string). -/
def strcasecmp : Str → Str → Int
  | [], [] => 0
  | [], b :: _ => 0 - ((tolower b).toNat : Int)
  | a :: _, [] => ((tolower a).toNat : Int)
  | a :: as, b :: bs =>
    if tolower a = tolower b then strcasecmp as bs
    else ((tolower a).toNat : Int) - ((tolower b).toNat : Int)

/-- A valid code point round-trips through `Char.ofNat`. -/
theorem char_ofNat_toNat {n : Nat} (hv : n.isValidChar) : (Char.ofNat n).toNat = n := by
  have hlt : n < 2 ^ 32 := by
    rcases hv with h | h
    · omega
    · omega
  simp [Char.ofNat, hv, Char.toNat, Char.ofNatAux, UInt32.toNat, UInt32.ofNat', BitVec.ofNat,
    Nat.mod_eq_of_lt hlt]

/-- Code point of the lowercase folding: shifted by 32 inside the ASCII
uppercase range, unchanged elsewhere. -/
theorem tolower_toNat (c : Char) :
    (tolower c).toNat =
      if 65 ≤ c.toNat ∧ c.toNat ≤ 90 then c.toNat + 32 else c.toNat := by
  unfold tolower
  have hcond : ('A' ≤ c ∧ c ≤ 'Z') ↔ (65 ≤ c.toNat ∧ c.toNat ≤ 90) := by
    simp only [Char.le_def, UInt32.le_def, BitVec.le_def]
    exact Iff.rfl
  by_cases h : 65 ≤ c.toNat ∧ c.toNat ≤ 90
  · rw [if_pos (hcond.mpr h), if_pos h]
    exact char_ofNat_toNat (Or.inl (by omega))
  · rw [if_neg (fun hc => h (hcond.mp hc)), if_neg h]

/-- The lowercase folding of a non-NUL character is non-NUL. -/
theorem tolower_toNat_ne_zero {c : Char} (h : c.toNat ≠ 0) : (tolower c).toNat ≠ 0 := by
  rw [tolower_toNat]
  split <;> omega

/-- For NUL-free strings, `strcasecmp` reports 0 exactly on
case-insensitive equality. -/
theorem strcasecmp_eq_zero_iff :
    ∀ (a b : Str), nul_free a = true → nul_free b = true →
      (strcasecmp a b = 0 ↔ ci_eq a b) := by
  intro a
  induction a with
  | nil =>
    intro b _ hnb
    cases b with
    | nil => simp [strcasecmp, ci_eq]
    | cons x xs =>
      have hx : x.toNat ≠ 0 := by
        simp [nul_free, List.all_cons] at hnb
        simpa using hnb.1
      simp only [strcasecmp, ci_eq, List.map_nil, List.map_cons]
      constructor
      · intro h
        exfalso
        have := tolower_toNat_ne_zero hx
        omega
      · intro h
        exact absurd h (by simp)
  | cons y ys ih =>
    intro b hna hnb
    have hy : y.toNat ≠ 0 := by
      simp [nul_free, List.all_cons] at hna
      simpa using hna.1
    have hys : nul_free ys = true := by
      simp [nul_free, List.all_cons] at hna
      simpa [nul_free] using hna.2
    cases b with
    | nil =>
      simp only [strcasecmp, ci_eq, List.map_nil, List.map_cons]
      constructor
      · intro h
        exfalso
        have := tolower_toNat_ne_zero hy
        omega
      · intro h
        exact absurd h (by simp)
    | cons x xs =>
      have hxs : nul_free xs = true := by
        simp [nul_free, List.all_cons] at hnb
        simpa [nul_free] using hnb.2
      simp only [strcasecmp, ci_eq, List.map_cons]
      by_cases hq : tolower y = tolower x
      · rw [if_pos hq]
        rw [ih xs hys hxs]
        simp [ci_eq, hq]
      · rw [if_neg hq]
        constructor
        · intro h
          exfalso
          have : (tolower y).toNat ≠ (tolower x).toNat :=
            fun hc => hq (char_toNat_inj hc)
          omega
        · intro h
          exact absurd (List.cons.injEq _ _ _ _ ▸ h).1 hq

/-- Case-insensitive equality of concrete strings is checkable. -/
instance ci_eq_decidable (a b : Str) : Decidable (ci_eq a b) :=
  inferInstanceAs (Decidable (a.map tolower = b.map tolower))

/-- Case-insensitive equality always makes `strcasecmp` report 0 (no
NUL-freeness needed for this direction). -/
theorem strcasecmp_eq_zero_of_ci_eq :
    ∀ (a b : Str), ci_eq a b → strcasecmp a b = 0 := by
  intro a
  induction a with
  | nil =>
    intro b h
    cases b with
    | nil => rfl
    | cons x xs => exact absurd h (by simp [ci_eq])
  | cons y ys ih =>
    intro b h
    cases b with
    | nil => exact absurd h (by simp [ci_eq])
    | cons x xs =>
      unfold ci_eq at h
      simp only [List.map_cons, List.cons.injEq] at h
      simp only [strcasecmp]
      rw [if_pos h.1]
      exact ih xs h.2

/-- Result of `handle_output_format`: the updated context, or process exit
with the given status carrying the diagnostic text (the invalid-format
branch resets the mode to text before printing the diagnostic, the
top-level usage, the format list and exiting). -/
inductive format_result : Type where
  | ok (cmdcxt : cmd_context)
  | exit (cmdcxt : cmd_context) (code : Nat) (msg : Str)
deriving DecidableEq

/-- Diagnostic printed by the invalid-format branch of
`handle_output_format` (`error: invalid output format "%s"`). -/
def invalid_format_msg (format : Str) : Str :=
  "error: invalid output format \"".data ++ format ++ "\"\n\n".data

/-- Scan of the `cmd_outputs` name table in `handle_output_format`: the
index of the first name comparing case-insensitively equal to the
requested format (the C loop breaks at the first hit and leaves
`i == CMD_OUTPUT_MAX` when there is none). -/
def format_lookup (format : Str) : List Str → Nat → Option Nat
  | [], _ => none
  | name :: rest, i =>
    if strcasecmp format name = 0 then some i else format_lookup format rest (i + 1)

/-- Source `btrfs.c` `handle_output_format`, parametrised by the
`cmd_outputs` name table (declared in commands.h outside src/; per the
spec the text mode name sits at index `CMD_OUTPUT_TEXT`): stores the
matched index into the context's output mode, or on no match resets the
mode to text, prints the diagnostic plus usage and format list, and exits
with status 1. -/
def handle_output_format (outputs : List Str) (cmdcxt : cmd_context)
    (format : Str) : format_result :=
  match format_lookup format outputs 0 with
  | some i => .ok { cmdcxt with output_mode := i }
  | none =>
    .exit { cmdcxt with output_mode := CMD_OUTPUT_TEXT } 1 (invalid_format_msg format)

/-- A format name matching nothing in the table scans to the end. -/
theorem format_lookup_none (format : Str) :
    ∀ (outputs : List Str) (i : Nat),
      (∀ n ∈ outputs, strcasecmp format n ≠ 0) →
      format_lookup format outputs i = none := by
  intro outputs
  induction outputs with
  | nil => intro i _; rfl
  | cons n rest ih =>
    intro i h
    rw [format_lookup, if_neg (h n (List.Mem.head rest))]
    exact ih (i + 1) (fun n' hn' => h n' (List.Mem.tail n hn'))

/-- The scan returns the index of the first case-insensitive hit. -/
theorem format_lookup_found (format name : Str) (post : List Str)
    (hm : strcasecmp format name = 0) :
    ∀ (pre : List Str) (i : Nat),
      (∀ p ∈ pre, strcasecmp format p ≠ 0) →
      format_lookup format (pre ++ name :: post) i = some (i + pre.length) := by
  intro pre
  induction pre with
  | nil =>
    intro i _
    rw [List.nil_append, format_lookup, if_pos hm]
    simp
  | cons p ps ih =>
    intro i h
    rw [List.cons_append, format_lookup, if_neg (h p (List.Mem.head ps))]
    rw [ih (i + 1) (fun p' hp' => h p' (List.Mem.tail p hp'))]
    simp
    omega

/-- Claim C5: the `--format` value lookup is case-insensitive against the
fixed list of output mode names; on a match it sets the dispatch
context's output mode to the matched mode (the first hit of the scan); on
no match it sets the mode to default text, emits the diagnostic naming
the value and terminates with exit status 1; and the result is
independent of the previous context, so the last occurrence wins when
`--format` is repeated. -/
theorem handle_output_format_spec (outputs : List Str) (cmdcxt cmdcxt' : cmd_context)
    (format : Str) (hf : nul_free format = true)
    (ho : ∀ n ∈ outputs, nul_free n = true) :
    (∀ pre name post, outputs = pre ++ name :: post →
        (∀ p ∈ pre, ¬ ci_eq format p) → ci_eq format name →
        handle_output_format outputs cmdcxt format = .ok ⟨pre.length⟩) ∧
    ((∀ n ∈ outputs, ¬ ci_eq format n) →
        handle_output_format outputs cmdcxt format =
          .exit ⟨CMD_OUTPUT_TEXT⟩ 1 (invalid_format_msg format)) ∧
    handle_output_format outputs cmdcxt format =
      handle_output_format outputs cmdcxt' format := by
  refine ⟨?_, ?_, ?_⟩
  · intro pre name post houts hpre hname
    have hnames : ∀ n ∈ outputs, nul_free n = true := ho
    have hmname : strcasecmp format name = 0 := by
      refine (strcasecmp_eq_zero_iff format name hf ?_).mpr hname
      exact hnames name (by rw [houts]; exact List.mem_append_right pre (List.Mem.head post))
    have hmpre : ∀ p ∈ pre, strcasecmp format p ≠ 0 := by
      intro p hp hz
      refine hpre p hp ?_
      refine (strcasecmp_eq_zero_iff format p hf ?_).mp hz
      exact hnames p (by rw [houts]; exact List.mem_append_left _ hp)
    unfold handle_output_format
    rw [houts, format_lookup_found format name post hmname pre 0 hmpre]
    simp
  · intro hnone
    have hm : ∀ n ∈ outputs, strcasecmp format n ≠ 0 := by
      intro n hn hz
      exact hnone n hn ((strcasecmp_eq_zero_iff format n hf (ho n hn)).mp hz)
    unfold handle_output_format
    rw [format_lookup_none format outputs 0 hm]
  · unfold handle_output_format
    cases format_lookup format outputs 0 <;> rfl

/-- Claim C5 witness: with the name table {text, json}, the mixed-case
value `Json` selects mode 1 from an arbitrary prior mode. -/
theorem handle_output_format_spec_witness :
    handle_output_format ["text".data, "json".data] ⟨7⟩ "Json".data = .ok ⟨1⟩ :=
  (handle_output_format_spec ["text".data, "json".data] ⟨7⟩ ⟨0⟩ "Json".data
      (by decide)
      (by intro n hn
          cases hn with
          | head => decide
          | tail _ hm =>
            cases hm with
            | head => decide
            | tail _ hm' => exact absurd hm' (List.not_mem_nil _))).1
    ["text".data] "json".data [] rfl
    (by intro p hp
        cases hp with
        | head => decide
        | tail _ hm' => exact absurd hm' (List.not_mem_nil _))
    (by decide)

/-- Claim C10: a context whose output mode is the numeric text/default
value 0 — also when an explicit `--format text` request stored it — makes
`cmd_provides_output_format` return true for every command, even one
whose capability mask has no text bit; an explicit text request stores
mode 0 and is thus indistinguishable from no request. -/
theorem text_mode_always_supported :
    (∀ (cmd : cmd_struct) (cmdcxt : cmd_context),
        cmdcxt.output_mode = CMD_OUTPUT_TEXT →
        cmd_provides_output_format cmd cmdcxt = true) ∧
    (∀ (outputs rest : List Str) (cmdcxt : cmd_context) (format : Str),
        outputs = "text".data :: rest → ci_eq format "text".data →
        handle_output_format outputs cmdcxt format = .ok ⟨CMD_OUTPUT_TEXT⟩) := by
  constructor
  · intro cmd cmdcxt h
    unfold CMD_OUTPUT_TEXT at h
    unfold cmd_provides_output_format
    rw [if_pos h]
  · intro outputs rest cmdcxt format houts hci
    have hm : strcasecmp format "text".data = 0 :=
      strcasecmp_eq_zero_of_ci_eq format "text".data hci
    unfold handle_output_format
    rw [houts, format_lookup]
    rw [if_pos hm]
    rfl

/-- Claim C10 witness: mode 0 is accepted even by a command whose mask
(value 2) has no text bit, and an explicit mixed-case `TEXT` request
stores exactly mode 0. -/
theorem text_mode_always_supported_witness :
    cmd_provides_output_format (cmd_struct.mk "send".data 2 none) ⟨0⟩ = true ∧
    handle_output_format ["text".data, "json".data] ⟨1⟩ "TEXT".data = .ok ⟨0⟩ :=
  ⟨text_mode_always_supported.1 (cmd_struct.mk "send".data 2 none) ⟨0⟩ rfl,
   text_mode_always_supported.2 ["text".data, "json".data] ["json".data] ⟨1⟩
     "TEXT".data rfl (by decide)⟩

/-- Rendering performed by the help interception before exiting: recursive
help for the nested group (`help_command_group`, an external renderer) or
direct usage for the command itself (`usage_command`). -/
inductive render_kind : Type where
  | nested_group_help
  | usage_cmd
deriving DecidableEq

/-- Result of `handle_help_options_next_level`: plain return (dispatch
continues) or process exit with the given status, an optional
unsupported-format diagnostic printed first, and the help rendering
performed. -/
inductive help_next_result : Type where
  | ret
  | exit (code : Nat) (format_diag : Option Str) (rendered : render_kind)
deriving DecidableEq

/-- Diagnostic of the unsupported-format branch
(`error: %s output is unsupported for this command.`), naming the mode's
entry in the `cmd_outputs` table. -/
def unsupported_format_msg (outputs : List Str) (cmdcxt : cmd_context) : Str :=
  "error: ".data ++ outputs.getD cmdcxt.output_mode [] ++
    " output is unsupported for this command.\n\n".data

/-- Source `btrfs.c` `handle_help_options_next_level`, parametrised by the
`cmd_outputs` table used in its diagnostic: with fewer than two arguments
it returns; a leaf command (`!cmd->next`) that cannot provide the
requested output format sets `err = 1` and prints the diagnostic; then if
the next argument is the literal `--help` or `err` is set, it renders
help (recursing into the nested group when present, else the command's
usage) and exits with `err`; otherwise it returns. -/
def handle_help_options_next_level (outputs : List Str) (cmd : cmd_struct)
    (cmdcxt : cmd_context) (argv : List Str) : help_next_result :=
  if argv.length < 2 then .ret
  else
    let unsupported :=
      cmd.next.isNone && ! cmd_provides_output_format cmd cmdcxt
    let err : Nat := if unsupported then 1 else 0
    if argv.getD 1 [] = "--help".data ∨ err ≠ 0 then
      .exit err
        (if unsupported then some (unsupported_format_msg outputs cmdcxt) else none)
        (if cmd.next.isSome then .nested_group_help else .usage_cmd)
    else .ret

/-- Claim C8: with more than one remaining argument, the pre-execution
interception exits 1 after the unsupported-format diagnostic and a direct
usage rendering when the resolved command is a leaf not supporting the
requested format; exits 0 when triggered only by a literal `--help` next
argument; and otherwise returns so that normal dispatch continues. -/
theorem handle_help_options_next_level_spec (outputs : List Str)
    (cmd : cmd_struct) (cmdcxt : cmd_context) (argv : List Str)
    (hlen : 2 ≤ argv.length) :
    (cmd.next = none → cmd_provides_output_format cmd cmdcxt = false →
        handle_help_options_next_level outputs cmd cmdcxt argv =
          .exit 1 (some (unsupported_format_msg outputs cmdcxt)) .usage_cmd) ∧
    ((cmd.next ≠ none ∨ cmd_provides_output_format cmd cmdcxt = true) →
        argv.getD 1 [] = "--help".data →
        handle_help_options_next_level outputs cmd cmdcxt argv =
          .exit 0 none
            (if cmd.next.isSome then .nested_group_help else .usage_cmd)) ∧
    ((cmd.next ≠ none ∨ cmd_provides_output_format cmd cmdcxt = true) →
        argv.getD 1 [] ≠ "--help".data →
        handle_help_options_next_level outputs cmd cmdcxt argv = .ret) := by
  have hnotlt : ¬ argv.length < 2 := by omega
  refine ⟨?_, ?_, ?_⟩
  · intro hleaf hnof
    unfold handle_help_options_next_level
    simp [hnotlt, hleaf, hnof]
  · intro hsupp hhelp
    unfold handle_help_options_next_level
    rcases hn : cmd.next with _ | g
    · have hp : cmd_provides_output_format cmd cmdcxt = true := by
        rcases hsupp with h | h
        · exact absurd hn h
        · exact h
      simp [hnotlt, hn, hp]
      simpa using hhelp
    · simp [hnotlt, hn]
      simpa using hhelp
  · intro hsupp hhelp
    unfold handle_help_options_next_level
    rcases hn : cmd.next with _ | g
    · have hp : cmd_provides_output_format cmd cmdcxt = true := by
        rcases hsupp with h | h
        · exact absurd hn h
        · exact h
      simp [hnotlt, hn, hp]
      simpa using hhelp
    · simp [hnotlt, hn]
      simpa using hhelp

/-- Claim C8 witness: a leaf command with an empty capability mask, a
requested mode 1 and two remaining arguments is intercepted with the
unsupported-format diagnostic, a direct usage rendering and exit status
1. -/
theorem handle_help_options_next_level_spec_witness :
    handle_help_options_next_level ["text".data, "json".data]
        (cmd_struct.mk "send".data 0 none) ⟨1⟩ ["send".data, "foo".data] =
      .exit 1 (some (unsupported_format_msg ["text".data, "json".data] ⟨1⟩))
        .usage_cmd :=
  (handle_help_options_next_level_spec ["text".data, "json".data]
      (cmd_struct.mk "send".data 0 none) ⟨1⟩ ["send".data, "foo".data]
      (by decide)).1 rfl (by decide)

/-- Help action selected by `handle_special_globals` before exiting:
the full top-level tree (`usage_command_group` with the full flag), the
`help` leaf command, or the `version` leaf command — all external
collaborators that only produce output. -/
inductive special_action : Type where
  | usage_full
  | help_cmd
  | version_cmd
deriving DecidableEq

/-- Result of `handle_special_globals`: plain return, or process exit with
the given status after performing the action, with `printed_formats`
recording whether the list of valid `--format` values was printed before
exiting. -/
inductive special_result : Type where
  | ret
  | exit (code : Nat) (act : special_action) (printed_formats : Bool)
deriving DecidableEq

/-- Source `btrfs.c` `handle_special_globals`: scan the first `shift`
elements of argv for `--help` and `--full`; with `--help` present, render
the full tree (when `--full` is also present) or run the `help` command,
print the `--format` value list, and exit 0.  Otherwise a second scan runs
the `version` command and exits 0 at the first `--version`; else
return. -/
def handle_special_globals (shift : Nat) (argv : List Str) : special_result :=
  let first := argv.take shift
  let has_help := first.contains "--help".data
  let has_full := first.contains "--full".data
  if has_help then
    .exit 0 (if has_full then .usage_full else .help_cmd) true
  else if first.contains "--version".data then
    .exit 0 .version_cmd false
  else .ret

/-- Claim C7: when `--help` occurs among the first `shift` (already
parsed) argv elements, the help branch runs and exits 0 after printing
the format list — the version command never runs even if `--version` is
also present; when `--help` is absent and `--version` present, the
version command runs and the process exits 0. -/
theorem handle_special_globals_spec (shift : Nat) (argv : List Str) :
    ("--help".data ∈ argv.take shift →
        handle_special_globals shift argv =
          .exit 0
            (if "--full".data ∈ argv.take shift then .usage_full else .help_cmd)
            true) ∧
    ("--help".data ∉ argv.take shift → "--version".data ∈ argv.take shift →
        handle_special_globals shift argv = .exit 0 .version_cmd false) := by
  constructor
  · intro hh
    by_cases hf : "--full".data ∈ argv.take shift
    · simp [handle_special_globals, hh, hf]
    · simp [handle_special_globals, hh, hf]
  · intro hh hv
    simp [handle_special_globals, hh, hv]

/-- Claim C7 witness: with both `--help` and `--version` among the two
parsed globals, the help command runs (not version) and the process exits
0 after printing the format list; with `--version` alone it is the
version command that exits 0. -/
theorem handle_special_globals_spec_witness :
    handle_special_globals 2 ["--help".data, "--version".data] =
      .exit 0 .help_cmd true ∧
    handle_special_globals 1 ["--version".data, "check".data] =
      .exit 0 .version_cmd false := by
  constructor
  · have h := (handle_special_globals_spec 2
      ["--help".data, "--version".data]).1 (by decide)
    rw [h]
    rw [if_neg (by decide)]
  · exact (handle_special_globals_spec 1
      ["--version".data, "check".data]).2 (by decide) (by decide)

/-- Result of `handle_global_options`: the count of argv positions
consumed (the shift, with the libc option cursor reset to 1 before
returning), or process exit with the given status and diagnostic — after
which no subcommand token resolution can occur. -/
inductive globals_result : Type where
  | done (cmdcxt : cmd_context) (shift : Nat)
  | exit (code : Nat) (msg : Str)
deriving DecidableEq

/-- Diagnostic of the unknown-global-option branch
(`Unknown global option: %s`). -/
def unknown_option_msg (tok : Str) : Str :=
  "Unknown global option: ".data ++ tok ++ "\n".data

/-- Modelled from the spec: an argv element treated as an option by
getopt: it starts with a dash and is not the bare `-`. -/
def is_option (a : Str) : Bool :=
  match a with
  | '-' :: _ :: _ => true
  | _ => false

/-- Modelled from the spec: the `getopt_long` scan of
`handle_global_options`, with libc `getopt_long` modelled by its
documented behaviour as configured there: long options `--help`,
`--version` and `--full` take no argument, `--format` requires one (the
following element, or attached after `=`), optstring `"+"` stops the scan
at the first non-option, `--` ends the options, and any other
option-looking element reaches the default branch, which prints the
unknown-option diagnostic and exits 129 (glibc's prefix abbreviation of
long option names is not modelled).  `idx` plays the role of `optind`; a
`--format` value rejected by `handle_output_format` propagates that
exit. -/
def global_opts_loop (outputs : List Str) :
    cmd_context → List Str → Nat → globals_result
  | cmdcxt, [], idx => .done cmdcxt idx
  | cmdcxt, a :: rest, idx =>
    if a = "--".data then .done cmdcxt (idx + 1)
    else if is_option a = false then .done cmdcxt idx
    else if a = "--help".data ∨ a = "--version".data ∨ a = "--full".data then
      global_opts_loop outputs cmdcxt rest (idx + 1)
    else if a = "--format".data then
      match rest with
      | [] => .exit 129 (unknown_option_msg a)
      | v :: rest' =>
        match handle_output_format outputs cmdcxt v with
        | .ok cmdcxt' => global_opts_loop outputs cmdcxt' rest' (idx + 2)
        | .exit _ code msg => .exit code msg
    else
      match skip_prefix a "--format=".data with
      | some v =>
        match handle_output_format outputs cmdcxt v with
        | .ok cmdcxt' => global_opts_loop outputs cmdcxt' rest (idx + 1)
        | .exit _ code msg => .exit code msg
      | none => .exit 129 (unknown_option_msg a)

/-- Source `btrfs.c` `handle_global_options`: with `argc == 0` return 0;
otherwise run the getopt scan from `optind = 1` (past the program name)
and report where parsing stopped. -/
def handle_global_options (outputs : List Str) (cmdcxt : cmd_context)
    (argv : List Str) : globals_result :=
  match argv with
  | [] => .done cmdcxt 0
  | _ :: rest => global_opts_loop outputs cmdcxt rest 1

/-- A `--format` value accepted by the `cmd_outputs` table: some name
compares case-insensitively equal. -/
def valid_format (outputs : List Str) (v : Str) : Bool :=
  outputs.any (fun n => strcasecmp v n == 0)

/-- Leading argv elements wholly made of recognized global options whose
`--format` values (separate or attached with `=`) are valid: after such a
prefix the getopt scan is still running. -/
def recognized_opts (outputs : List Str) : List Str → Bool
  | [] => true
  | a :: rest =>
    if a = "--help".data ∨ a = "--version".data ∨ a = "--full".data then
      recognized_opts outputs rest
    else if a = "--format".data then
      match rest with
      | [] => false
      | v :: rest' => valid_format outputs v && recognized_opts outputs rest'
    else
      match skip_prefix a "--format=".data with
      | some v => valid_format outputs v && recognized_opts outputs rest
      | none => false

/-- A hit somewhere in the table makes the scan succeed. -/
theorem format_lookup_isSome_of_exists (format : Str) :
    ∀ (outputs : List Str) (i : Nat),
      (∃ n ∈ outputs, strcasecmp format n = 0) →
      (format_lookup format outputs i).isSome = true := by
  intro outputs
  induction outputs with
  | nil =>
    intro i h
    obtain ⟨n, hn, -⟩ := h
    exact absurd hn (List.not_mem_nil n)
  | cons n rest ih =>
    intro i h
    rw [format_lookup]
    by_cases hz : strcasecmp format n = 0
    · rw [if_pos hz]
      rfl
    · rw [if_neg hz]
      refine ih (i + 1) ?_
      obtain ⟨n', hn', hz'⟩ := h
      cases hn' with
      | head => exact absurd hz' hz
      | tail _ hm => exact ⟨n', hm, hz'⟩

/-- A valid format value always takes the `.ok` branch of
`handle_output_format`. -/
theorem handle_output_format_ok_of_valid (outputs : List Str)
    (cmdcxt : cmd_context) (v : Str) (h : valid_format outputs v = true) :
    ∃ cmdcxt', handle_output_format outputs cmdcxt v = .ok cmdcxt' := by
  have hex : ∃ n ∈ outputs, strcasecmp v n = 0 := by
    unfold valid_format at h
    obtain ⟨n, hn, hz⟩ := List.any_eq_true.mp h
    exact ⟨n, hn, by simpa using hz⟩
  have hs := format_lookup_isSome_of_exists v outputs 0 hex
  unfold handle_output_format
  cases hl : format_lookup v outputs 0 with
  | none => rw [hl] at hs; exact absurd hs (by simp)
  | some i => exact ⟨⟨i⟩, rfl⟩

/-- Bounded-length form of the unknown-option guarantee: after any
recognized option prefix, an option-looking element that is none of the
recognized long options (nor a `--format=` form, nor the `--` end marker)
drives the scan into the default branch, which exits 129 naming it. -/
theorem global_opts_loop_unknown_bounded (outputs : List Str) (bad : Str)
    (post : List Str)
    (h0 : bad ≠ "--".data) (hopt : is_option bad = true)
    (h1 : bad ≠ "--help".data) (h2 : bad ≠ "--version".data)
    (h3 : bad ≠ "--full".data) (h4 : bad ≠ "--format".data)
    (hfmt : skip_prefix bad "--format=".data = none) :
    ∀ (n : Nat) (pre : List Str), pre.length ≤ n →
      recognized_opts outputs pre = true →
      ∀ (cmdcxt : cmd_context) (idx : Nat),
        global_opts_loop outputs cmdcxt (pre ++ bad :: post) idx =
          .exit 129 (unknown_option_msg bad) := by
  intro n
  induction n with
  | zero =>
    intro pre hlen _ cmdcxt idx
    have : pre = [] := List.eq_nil_of_length_eq_zero (Nat.le_zero.mp hlen)
    subst this
    rw [List.nil_append]
    rw [global_opts_loop.eq_def]
    simp only
    simp [hopt, h0, h1, h2, h3, h4, hfmt]
  | succ m ihm =>
    intro pre hlen hpre cmdcxt idx
    cases pre with
    | nil =>
      rw [List.nil_append]
      rw [global_opts_loop.eq_def]
      simp only
      simp [hopt, h0, h1, h2, h3, h4, hfmt]
    | cons a pre' =>
      rw [List.cons_append]
      by_cases hA : a = "--help".data ∨ a = "--version".data ∨ a = "--full".data
      · have hrest : recognized_opts outputs pre' = true := by
          rw [recognized_opts.eq_def] at hpre
          simp only at hpre
          rw [if_pos hA] at hpre
          exact hpre
        have hlen' : pre'.length ≤ m := by
          simp at hlen
          omega
        rcases hA with h | h | h <;>
          (subst h
           rw [global_opts_loop.eq_def]
           simp only
           rw [if_neg (by decide), if_neg (by decide), if_pos (by decide)]
           exact ihm pre' hlen' hrest cmdcxt (idx + 1))
      · by_cases hF : a = "--format".data
        · subst hF
          rw [recognized_opts.eq_def] at hpre
          cases pre' with
          | nil => simp at hpre
          | cons v pre'' =>
            simp at hpre
            obtain ⟨hv, hr⟩ := hpre
            obtain ⟨c', hc'⟩ := handle_output_format_ok_of_valid outputs cmdcxt v hv
            have hlen'' : pre''.length ≤ m := by
              simp at hlen
              omega
            rw [global_opts_loop.eq_def]
            simp only [List.cons_append, hc']
            exact ihm pre'' hlen'' hr c' (idx + 2)
        · cases hsp : skip_prefix a "--format=".data with
          | none =>
            rw [recognized_opts.eq_def] at hpre
            simp [hA, hF, hsp] at hpre
          | some v =>
            rw [recognized_opts.eq_def] at hpre
            simp [hA, hF, hsp] at hpre
            obtain ⟨hv, hr⟩ := hpre
            obtain ⟨c', hc'⟩ := handle_output_format_ok_of_valid outputs cmdcxt v hv
            have hlen' : pre'.length ≤ m := by
              simp at hlen
              omega
            have hz : strncmp a "--format=".data ("--format=".data).length = 0 := by
              by_contra hc
              rw [ skip_prefix, if_neg hc] at hsp
              exact Option.noConfusion hsp
            have hpfx : ("--format=".data).isPrefixOf a = true :=
              (strncmp_eq_zero_iff "--format=".data a (by decide)).mp hz
            obtain ⟨t, ht⟩ := List.isPrefixOf_iff_prefix.mp hpfx
            have hne0 : a ≠ "--".data := by
              intro h
              rw [h, show skip_prefix "--".data "--format=".data = none from rfl]
                at hsp
              exact Option.noConfusion hsp
            have hio : is_option a = true := by
              rw [← ht]
              rfl
            have hneH : a ≠ "--help".data := by
              intro h
              rw [h, show skip_prefix "--help".data "--format=".data = none from rfl]
                at hsp
              exact Option.noConfusion hsp
            have hneV : a ≠ "--version".data := by
              intro h
              rw [h,
                show skip_prefix "--version".data "--format=".data = none from rfl]
                at hsp
              exact Option.noConfusion hsp
            have hneF : a ≠ "--full".data := by
              intro h
              rw [h, show skip_prefix "--full".data "--format=".data = none from rfl]
                at hsp
              exact Option.noConfusion hsp
            have hneFmt : a ≠ "--format".data := by
              intro h
              rw [h,
                show skip_prefix "--format".data "--format=".data = none from rfl]
                at hsp
              exact Option.noConfusion hsp
            rw [global_opts_loop.eq_def]
            simp only [hio, hsp, hc']
            rw [if_neg hne0, if_neg (by simp), if_neg (by simp [hneH, hneV, hneF]),
              if_neg hneFmt]
            exact ihm pre' hlen' hr c' (idx + 1)

/-- Claim C6: an argument vector whose leading global options include a
token that is none of `--help`, `--version`, `--full` or `--format`
(with its value) makes `handle_global_options` terminate the process with
exit status 129 and a diagnostic naming that token; the exit result is
terminal, so no subcommand token resolution occurs afterwards. -/
theorem handle_global_options_unknown (outputs : List Str) (cmdcxt : cmd_context)
    (prog : Str) (pre : List Str) (bad : Str) (post : List Str)
    (hpre : recognized_opts outputs pre = true)
    (hopt : is_option bad = true)
    (h0 : bad ≠ "--".data) (h1 : bad ≠ "--help".data) (h2 : bad ≠ "--version".data)
    (h3 : bad ≠ "--full".data) (h4 : bad ≠ "--format".data)
    (hfmt : skip_prefix bad "--format=".data = none) :
    handle_global_options outputs cmdcxt (prog :: (pre ++ bad :: post)) =
      .exit 129 (unknown_option_msg bad) := by
  unfold handle_global_options
  exact global_opts_loop_unknown_bounded outputs bad post h0 hopt h1 h2 h3 h4 hfmt
    pre.length pre (Nat.le_refl _) hpre cmdcxt 1

/-- Claim C6 witness: `btrfs --full --bogus check` exits 129 naming
`--bogus`. -/
theorem handle_global_options_unknown_witness :
    handle_global_options ["text".data] ⟨0⟩
        ["btrfs".data, "--full".data, "--bogus".data, "check".data] =
      .exit 129 (unknown_option_msg "--bogus".data) :=
  handle_global_options_unknown ["text".data] ⟨0⟩ "btrfs".data ["--full".data]
    "--bogus".data ["check".data] (by decide) (by decide) (by decide) (by decide)
    (by decide) (by decide) (by decide) (by decide)
